import Mathlib

/-!
Shallow embedding of the Russian-roulette game engine from
`src/bot/skills/roll.py` (vldc-bot).

The revolver barrel is a Python `List[bool]` (index `i` holds `True` when
chamber `i` is loaded); `_reload` builds `[False]*NUM_BULLETS` and sets one
uniformly random index to `True`; `_shot` pops from the end.  Randomness
(`randint(0, NUM_BULLETS - 1)`) is modelled by passing the drawn index
explicitly, with the hypothesis that it lies in `[0, NUM_BULLETS)` where the
claims need it.  Python `int` arithmetic in `get_mute_minutes` is modelled
over `Int`; counters in the Mongo document only ever increase from 0 and are
modelled over `Nat`.
-/

namespace Roll

/-- `MUTE_MINUTES = 16 * 60` from the source. -/
def MUTE_MINUTES : Nat := 16 * 60

/-- `NUM_BULLETS = 6` from the source. -/
def NUM_BULLETS : Nat := 6

/-- `_reload`, generic in the barrel size `n` (the source fixes
`n = NUM_BULLETS`; the spec asks that `N` be injectable):
`barrel = [empty] * n; barrel[lucky_number] = bullet`. -/
def _reloadN (n lucky : Nat) : List Bool :=
  (List.replicate n false).set lucky true

/-- `_reload` exactly as in the source: `n = NUM_BULLETS`. -/
def _reload (lucky : Nat) : List Bool :=
  _reloadN NUM_BULLETS lucky

/-- The barrel `_shot` operates on after its reload-check:
`barrel = context.chat_data.get("barrel"); if barrel is None or
len(barrel) == 0: barrel = _reload(context)`.  `stored` is
`chat_data.get("barrel")` (`none` when the key is absent). -/
def effectiveBarrelN (n luckyInit : Nat) (stored : Option (List Bool)) : List Bool :=
  match stored with
  | none => _reloadN n luckyInit
  | some b => if b.length = 0 then _reloadN n luckyInit else b

/-- `_shot`, generic in the barrel size.  Returns
`((fate, shots_remained), new stored barrel)`:
`fate = barrel.pop()` (pop from the end), `shots_remained = len(barrel)`
after the pop, and on `fate` a fresh `_reload` replaces the barrel before
returning.  `luckyInit` / `luckyHit` are the random indices the two possible
`_reload` calls would draw. -/
def _shotN (n luckyInit luckyHit : Nat) (stored : Option (List Bool)) :
    (Bool × Nat) × List Bool :=
  let barrel := effectiveBarrelN n luckyInit stored
  let fate := barrel.getLastD false
  let rest := barrel.dropLast
  let shots_remained := rest.length
  let final := if fate then _reloadN n luckyHit else rest
  ((fate, shots_remained), final)

/-- `_shot` exactly as in the source: `n = NUM_BULLETS`. -/
def _shot (luckyInit luckyHit : Nat) (stored : Option (List Bool)) :
    (Bool × Nat) × List Bool :=
  _shotN NUM_BULLETS luckyInit luckyHit stored

/-- `get_mute_minutes(shots_remain) = MUTE_MINUTES * (NUM_BULLETS -
shots_remain)` over Python ints. -/
def get_mute_minutes (shots_remain : Int) : Int :=
  (MUTE_MINUTES : Int) * ((NUM_BULLETS : Int) - shots_remain)

/-- A sequence of consecutive `_shot` calls in one chat, threading
`chat_data["barrel"]`; each element of `rngs` carries the two random draws
the corresponding call would use.  Returns the list of
`(fate, shots_remained)` results and the final stored barrel. -/
def runFiresN (n : Nat) : List (Nat × Nat) → Option (List Bool) →
    List (Bool × Nat) × Option (List Bool)
  | [], st => ([], st)
  | (li, lh) :: rest, st =>
    let r := _shotN n li lh st
    ((r.1 :: (runFiresN n rest (some r.2)).1), (runFiresN n rest (some r.2)).2)

/-- `runFiresN` at the source's barrel size. -/
def runFires (rngs : List (Nat × Nat)) (st : Option (List Bool)) :
    List (Bool × Nat) × Option (List Bool) :=
  runFiresN NUM_BULLETS rngs st

-- ### Mood-emoji list and miss narration (`get_miss_string`)

/-- The 5-element mood list `S` of `get_miss_string`. -/
def S : List String := ["e0", "e1", "e2", "e3", "e4"]

/-- Python list indexing `l[i]`: a negative index counts from the end; an
index out of range raises (modelled as `none`). -/
def pyGet (l : List String) (i : Int) : Option String :=
  if 0 ≤ i then l.get? i.toNat
  else if i.natAbs ≤ l.length then l.get? (l.length - i.natAbs) else none

/-- `get_miss_string(shots_remain)`: `none` models the `IndexError` raised
when `S[NUM_BULLETS - shots_remain - 1]` is out of range.  `//` is Python
floor division (`Int.fdiv`); `['🔘'] * k` with a negative `k` is the empty
list, hence `Int.toNat`. -/
def get_miss_string (shots_remain : Int) : Option String :=
  match pyGet S ((NUM_BULLETS : Int) - shots_remain - 1) with
  | none => none
  | some mood =>
    let misses := List.replicate ((NUM_BULLETS : Int) - shots_remain).toNat "o"
    let chances := List.replicate shots_remain.toNat "c"
    let barrel_str := String.join (misses ++ chances)
    let h := Int.fdiv (get_mute_minutes (shots_remain - 1)) 60
    some (mood ++ " MISS! Barrel: " ++ barrel_str ++ ", " ++ toString h ++ "h")

-- ### Hussar ledger (`class DB`, Mongo collection keyed by `_id`)

/-- One document of the `hussars` collection.  `meta` is the opaque profile
snapshot; timestamps are abstract `Nat` instants. -/
structure Hussar where
  meta : String
  shot_counter : Nat
  miss_counter : Nat
  dead_counter : Nat
  total_time_in_club : Int
  first_shot : Nat
  last_shot : Nat
  deriving Repr, DecidableEq

/-- The collection: an association list keyed by user id (`_id` is unique). -/
abbrev DBState := List (Int × Hussar)

/-- `DB.find`: `find_one({"_id": user_id})`. -/
def DB_find (db : DBState) (uid : Int) : Option Hussar :=
  (List.find? (fun p => p.1 == uid) db).map Prod.snd

/-- The document `DB.add` inserts: all counters zero,
`total_time_in_club = timedelta().seconds = 0`, both timestamps `now`. -/
def freshHussar (meta : String) (now : Nat) : Hussar :=
  ⟨meta, 0, 0, 0, 0, now, now⟩

/-- `DB.add`: `insert_one` of a fresh document (call sites only invoke it
when the id is absent). -/
def DB_add (db : DBState) (uid : Int) (meta : String) (now : Nat) : DBState :=
  (uid, freshHussar meta now) :: db

/-- The `$inc`/`$set` document of `DB.dead` applied to one record. -/
def deadUpdate (mute_min : Int) (now : Nat) (h : Hussar) : Hussar :=
  { h with
      shot_counter := h.shot_counter + 1
      dead_counter := h.dead_counter + 1
      total_time_in_club := h.total_time_in_club + mute_min * 60
      last_shot := now }

/-- The `$inc`/`$set` document of `DB.miss` applied to one record. -/
def missUpdate (now : Nat) (h : Hussar) : Hussar :=
  { h with
      shot_counter := h.shot_counter + 1
      miss_counter := h.miss_counter + 1
      last_shot := now }

/-- `update_one({"_id": uid}, upd)`: updates the matching record, silently a
no-op when absent. -/
def updateOne (db : DBState) (uid : Int) (upd : Hussar → Hussar) : DBState :=
  db.map (fun p => if p.1 == uid then (p.1, upd p.2) else p)

/-- `DB.dead(user_id, mute_min)`. -/
def DB_dead (db : DBState) (uid : Int) (mute_min : Int) (now : Nat) : DBState :=
  updateOne db uid (deadUpdate mute_min now)

/-- `DB.miss(user_id)`. -/
def DB_miss (db : DBState) (uid : Int) (now : Nat) : DBState :=
  updateOne db uid (missUpdate now)

-- ### Orchestration (`roll` handler)

/-- Outcome of one `roll` call, as the spec's `FireOutcome`. -/
structure FireOutcome where
  died : Bool
  penaltyMinutes : Int
  remainingBefore : Nat
  deriving Repr, DecidableEq

/-- The `roll` handler's game logic:
`_db.find(user.id) or _db.add(user)`, then `_shot`; on a hit
`mute_min = get_mute_minutes(shots_remained)` and `_db.dead(user.id,
mute_min)`; on a miss `_db.miss(user.id)`.  Returns the outcome, the ledger
after the call and the new stored barrel. -/
def roll (db : DBState) (uid : Int) (meta : String) (now : Nat)
    (luckyInit luckyHit : Nat) (stored : Option (List Bool)) :
    FireOutcome × DBState × List Bool :=
  let db1 := if (DB_find db uid).isSome then db else DB_add db uid meta now
  let r := _shot luckyInit luckyHit stored
  let fate := r.1.1
  let shots_remained := r.1.2
  if fate then
    let mute_min := get_mute_minutes (shots_remained : Int)
    (⟨true, mute_min, shots_remained⟩, DB_dead db1 uid mute_min now, r.2)
  else
    (⟨false, 0, shots_remained⟩, DB_miss db1 uid now, r.2)

-- ### Locking (`barrel_lock`)

/-- The source's module-level `barrel_lock = Lock()`: a single lock object.
Lock identities are modelled as `Nat`. -/
def barrel_lock : Nat := 0

/-- The lock `_shot` acquires when firing in a given chat: the source's
`_shot` acquires the global `barrel_lock` regardless of which chat the
update came from. -/
def lockForChat (_chatId : Int) : Nat := barrel_lock

-- ### Basic barrel lemmas

theorem reloadN_eq_concat_form (n lucky : Nat) (h : lucky < n) :
    _reloadN n lucky =
      List.replicate lucky false ++ true :: List.replicate (n - lucky - 1) false := by
  induction lucky generalizing n with
  | zero =>
    cases n with
    | zero => omega
    | succ m =>
      simp [_reloadN, List.replicate_succ, List.set]
  | succ k ih =>
    cases n with
    | zero => omega
    | succ m =>
      have hk : k < m := by omega
      have := ih m hk
      simp only [_reloadN, List.replicate_succ, List.set] at this ⊢
      simp [this, Nat.succ_sub_one]

theorem reloadN_length (n lucky : Nat) : (_reloadN n lucky).length = n := by
  simp [_reloadN]

theorem reloadN_count_one (n lucky : Nat) (h : lucky < n) :
    (_reloadN n lucky).count true = 1 := by
  rw [reloadN_eq_concat_form n lucky h]
  simp [List.count_append, List.count_replicate, List.count_cons]

theorem reloadN_get_eq (n lucky : Nat) (h : lucky < n) (i : Nat) (hi : i < n) :
    (_reloadN n lucky).getD i false = decide (i = lucky) := by
  unfold _reloadN
  rcases eq_or_ne i lucky with rfl | hne
  · rw [List.getD_eq_getElem?_getD, List.getElem?_set_self] <;>
      simp [List.length_replicate, h, List.getElem?_replicate, hi]
  · rw [List.getD_eq_getElem?_getD, List.getElem?_set_ne (by omega)]
    simp [List.getElem?_replicate, hi, hne]

theorem reloadN_ne_nil (n li : Nat) (hn : 1 ≤ n) : _reloadN n li ≠ [] := by
  intro h
  have hlen := reloadN_length n li
  rw [h] at hlen
  simp at hlen
  omega

theorem effectiveBarrelN_ne_nil (n li : Nat) (hn : 1 ≤ n) (st : Option (List Bool)) :
    effectiveBarrelN n li st ≠ [] := by
  have hrn : _reloadN n li ≠ [] := reloadN_ne_nil n li hn
  cases st with
  | none => simpa [effectiveBarrelN] using hrn
  | some b =>
    by_cases hb : b.length = 0
    · simpa [effectiveBarrelN, hb] using hrn
    · have hbne : b ≠ [] := by
        intro h
        exact hb (by simp [h])
      simpa [effectiveBarrelN, hb] using hbne

theorem effectiveBarrelN_of_ne_nil (n li : Nat) (b : List Bool) (hb : b ≠ []) :
    effectiveBarrelN n li (some b) = b := by
  unfold effectiveBarrelN
  simp [List.length_eq_zero, hb]

-- ### Claim theorems

/-- C1: `_shot` pops exactly the last chamber of the (post-reload-check)
barrel; `shots_remained` is the number of chambers left after the pop; on a
loaded pop it returns `hit = true` and stores a freshly reloaded cylinder,
on an empty pop it returns `hit = false` and stores the same sequence with
one fewer chamber and no reload. -/
theorem C1_shot_pops_last (stored : Option (List Bool)) (li lh : Nat) :
    effectiveBarrelN NUM_BULLETS li stored =
      (effectiveBarrelN NUM_BULLETS li stored).dropLast ++ [(_shot li lh stored).1.1] ∧
    (_shot li lh stored).1.2 = (effectiveBarrelN NUM_BULLETS li stored).length - 1 ∧
    ((_shot li lh stored).1.1 = true → (_shot li lh stored).2 = _reload lh) ∧
    ((_shot li lh stored).1.1 = false →
      (_shot li lh stored).2 = (effectiveBarrelN NUM_BULLETS li stored).dropLast) := by
  have hne := effectiveBarrelN_ne_nil NUM_BULLETS li (by decide) stored
  obtain ⟨xs, x, hx⟩ :=
    (List.eq_nil_or_concat (effectiveBarrelN NUM_BULLETS li stored)).resolve_left hne
  rw [List.concat_eq_append] at hx
  have hfate : (_shot li lh stored).1.1 = x := by
    simp [_shot, _shotN, hx, List.getLastD_concat]
  have hdrop : (effectiveBarrelN NUM_BULLETS li stored).dropLast = xs := by
    rw [hx, List.dropLast_concat]
  refine ⟨?_, ?_, ?_, ?_⟩
  · rw [hfate, hdrop, hx]
  · simp [_shot, _shotN, hx, List.dropLast_concat, List.length_append]
  · intro h
    rw [hfate] at h
    subst h
    simp [_shot, _shotN, _reload, hx, List.getLastD_concat]
  · intro h
    rw [hfate] at h
    subst h
    rw [hdrop]
    simp [_shot, _shotN, hx, List.getLastD_concat, List.dropLast_concat]

/-- C2: a reload builds a sequence of length exactly `n` with the randomly
chosen chamber loaded and every other chamber empty (hence exactly one
loaded); `_shot` reloads exactly when the stored barrel is absent or empty
(behaving as a fire on a fresh cylinder), never reloads before the pop on a
non-empty barrel (the result is independent of the reload draw), and after
the pop reloads exactly on a hit. -/
theorem C2_reload_invariant (n lucky li li' lh : Nat) (b : List Bool)
    (hn : 1 ≤ n) (hl : lucky < n) (hb : b ≠ []) :
    (_reloadN n lucky).length = n ∧
    (_reloadN n lucky).count true = 1 ∧
    (_reloadN n lucky).getD lucky false = true ∧
    (∀ i, i < n → i ≠ lucky → (_reloadN n lucky).getD i false = false) ∧
    _shotN n li lh none = _shotN n li lh (some (_reloadN n li)) ∧
    _shotN n li lh (some []) = _shotN n li lh (some (_reloadN n li)) ∧
    _shotN n li lh (some b) = _shotN n li' lh (some b) ∧
    ((_shotN n li lh (some b)).1.1 = true → (_shotN n li lh (some b)).2 = _reloadN n lh) ∧
    ((_shotN n li lh (some b)).1.1 = false →
      (_shotN n li lh (some b)).2 = b.dropLast) := by
  have heff : effectiveBarrelN n li (some (_reloadN n li)) = _reloadN n li :=
    effectiveBarrelN_of_ne_nil n li (_reloadN n li) (reloadN_ne_nil n li hn)
  have heffb : effectiveBarrelN n li (some b) = b := effectiveBarrelN_of_ne_nil n li b hb
  have heffb' : effectiveBarrelN n li' (some b) = b := effectiveBarrelN_of_ne_nil n li' b hb
  refine ⟨reloadN_length n lucky, reloadN_count_one n lucky hl, ?_, ?_, ?_, ?_, ?_, ?_, ?_⟩
  · have := reloadN_get_eq n lucky hl lucky hl
    simpa using this
  · intro i hi hne
    have := reloadN_get_eq n lucky hl i hi
    simpa [hne] using this
  · simp [_shotN, effectiveBarrelN, heff]
  · simp [_shotN, effectiveBarrelN, heff]
  · simp [_shotN, heffb, heffb']
  · intro hfate
    simp only [_shotN, heffb] at hfate ⊢
    simp_all
  · intro hfate
    simp only [_shotN, heffb] at hfate ⊢
    simp_all

/-- C3: the penalty function is `get_mute_minutes r = B * (N - r)` with
`B = 960` and `N = 6`; it is monotonically non-decreasing as `r` decreases;
and `get_mute_minutes (N-1) = 960`, `get_mute_minutes 0 = 5760`.  (It is a
total Lean function over `Int`, in particular total on `0 ≤ r < N`.) -/
theorem C3_penalty (r : Int) (hr0 : 0 ≤ r) (hr1 : r < (NUM_BULLETS : Int)) :
    get_mute_minutes r = 960 * ((NUM_BULLETS : Int) - r) ∧
    (∀ r' : Int, 0 ≤ r' → r' ≤ r → get_mute_minutes r ≤ get_mute_minutes r') ∧
    get_mute_minutes ((NUM_BULLETS : Int) - 1) = 960 ∧
    get_mute_minutes 0 = 960 * (NUM_BULLETS : Int) := by
  refine ⟨?_, ?_, by decide, by decide⟩
  · simp [get_mute_minutes, MUTE_MINUTES, NUM_BULLETS]
  · intro r' h0' hle
    unfold get_mute_minutes MUTE_MINUTES
    have hsub : (NUM_BULLETS : Int) - r ≤ (NUM_BULLETS : Int) - r' := by omega
    have hB : (0 : Int) ≤ ((16 * 60 : Nat) : Int) := by decide
    exact mul_le_mul_of_nonneg_left hsub hB

/-- Witness for C3 at `r = 3` (monotonicity instantiated at `r' = 2`). -/
theorem C3_penalty_witness :
    ((0 : Int) ≤ 3 ∧ (3 : Int) < (NUM_BULLETS : Int)) ∧
    get_mute_minutes 3 = 960 * ((NUM_BULLETS : Int) - 3) ∧
    get_mute_minutes 3 ≤ get_mute_minutes 2 ∧
    get_mute_minutes ((NUM_BULLETS : Int) - 1) = 960 ∧
    get_mute_minutes 0 = 960 * (NUM_BULLETS : Int) := by
  have h := C3_penalty 3 (by decide) (by decide)
  exact ⟨⟨by decide, by decide⟩, h.1, h.2.1 2 (by decide) (by decide), h.2.2.1, h.2.2.2⟩

/-- Witness for C2 at `n = 6`, `lucky = 2`, `b = [true, false]`. -/
theorem C2_reload_invariant_witness :
    (1 ≤ 6 ∧ 2 < 6 ∧ ([true, false] : List Bool) ≠ []) ∧
    (_reloadN 6 2).length = 6 ∧
    (_reloadN 6 2).count true = 1 ∧
    (_reloadN 6 2).getD 2 false = true ∧
    (_reloadN 6 2).getD 0 false = false ∧
    _shotN 6 1 4 none = _shotN 6 1 4 (some (_reloadN 6 1)) ∧
    _shotN 6 1 4 (some []) = _shotN 6 1 4 (some (_reloadN 6 1)) ∧
    _shotN 6 1 4 (some [true, false]) = _shotN 6 3 4 (some [true, false]) ∧
    (_shotN 6 1 4 (some [true, false])).2 = ([true, false] : List Bool).dropLast := by
  have h := C2_reload_invariant 6 2 1 3 4 [true, false] (by decide) (by decide) (by decide)
  exact ⟨⟨by decide, by decide, by decide⟩, h.1, h.2.1, h.2.2.1,
    h.2.2.2.1 0 (by decide) (by decide), h.2.2.2.2.1, h.2.2.2.2.2.1,
    h.2.2.2.2.2.2.1, h.2.2.2.2.2.2.2.2 (by decide)⟩

/-- Witness for C1 at `stored = some [false, true]`, both reload draws `0`
(the hit branch instantiated by evaluation). -/
theorem C1_shot_pops_last_witness :
    effectiveBarrelN NUM_BULLETS 0 (some [false, true]) =
      (effectiveBarrelN NUM_BULLETS 0 (some [false, true])).dropLast ++
        [(_shot 0 0 (some [false, true])).1.1] ∧
    (_shot 0 0 (some [false, true])).1.2 =
      (effectiveBarrelN NUM_BULLETS 0 (some [false, true])).length - 1 ∧
    (_shot 0 0 (some [false, true])).2 = _reload 0 := by
  have h := C1_shot_pops_last (some [false, true]) 0 0
  exact ⟨h.1, h.2.1, h.2.2.1 (by decide)⟩

theorem runFiresN_cons (n li lh : Nat) (rest : List (Nat × Nat)) (st : Option (List Bool)) :
    runFiresN n ((li, lh) :: rest) st =
      ((_shotN n li lh st).1 :: (runFiresN n rest (some (_shotN n li lh st).2)).1,
        (runFiresN n rest (some (_shotN n li lh st).2)).2) := rfl

theorem shotN_concat (n li lh : Nat) (c : List Bool) (x : Bool) :
    _shotN n li lh (some (c ++ [x])) =
      ((x, c.length), if x then _reloadN n lh else c) := by
  have heff := effectiveBarrelN_of_ne_nil n li (c ++ [x]) (by simp)
  simp only [_shotN, heff, List.getLastD_concat, List.dropLast_concat]

theorem shot_on_pending (n li lh : Nat) (A : List Bool) (j : Nat) :
    _shotN n li lh (some (A ++ true :: List.replicate (j + 1) false)) =
      ((false, A.length + (j + 1)), A ++ true :: List.replicate j false) := by
  have hbform : A ++ true :: List.replicate (j + 1) false
      = (A ++ true :: List.replicate j false) ++ [false] := by
    rw [List.replicate_succ']
    simp
  rw [hbform, shotN_concat]
  simp [List.length_append]

theorem shot_on_last (n li lh : Nat) (A : List Bool) :
    _shotN n li lh (some (A ++ [true])) = ((true, A.length), _reloadN n lh) := by
  rw [shotN_concat]
  simp

theorem miss_run (n : Nat) (A : List Bool) :
    ∀ (rngs : List (Nat × Nat)) (j : Nat),
    (∀ p ∈ (runFiresN n rngs (some (A ++ true :: List.replicate j false))).1, p.1 = false) →
    rngs.length ≤ j ∧
    (runFiresN n rngs (some (A ++ true :: List.replicate j false))).1.map Prod.snd =
      (List.range rngs.length).map (fun i => A.length + j - i) ∧
    (runFiresN n rngs (some (A ++ true :: List.replicate j false))).2 =
      some (A ++ true :: List.replicate (j - rngs.length) false) := by
  intro rngs
  induction rngs with
  | nil =>
    intro j hmiss
    exact ⟨Nat.zero_le j, by simp [runFiresN], by simp [runFiresN]⟩
  | cons hd tl ih =>
    intro j hmiss
    obtain ⟨li, lh⟩ := hd
    cases j with
    | zero =>
      exfalso
      have hb0 : A ++ true :: List.replicate 0 false = A ++ [true] := by simp
      have hr : (_shotN n li lh (some (A ++ true :: List.replicate 0 false))).1
          = (true, A.length) := by
        rw [hb0, shot_on_last]
      have hmem : (_shotN n li lh (some (A ++ true :: List.replicate 0 false))).1
          ∈ (runFiresN n ((li, lh) :: tl) (some (A ++ true :: List.replicate 0 false))).1 := by
        rw [runFiresN_cons]
        exact List.mem_cons_self _ _
      have hfalse := hmiss _ hmem
      rw [hr] at hfalse
      simp at hfalse
    | succ j' =>
      have hstep := shot_on_pending n li lh A j'
      have hres : runFiresN n ((li, lh) :: tl) (some (A ++ true :: List.replicate (j' + 1) false)) =
          ((false, A.length + (j' + 1)) ::
              (runFiresN n tl (some (A ++ true :: List.replicate j' false))).1,
            (runFiresN n tl (some (A ++ true :: List.replicate j' false))).2) := by
        rw [runFiresN_cons, hstep]
      have hmiss' : ∀ p ∈ (runFiresN n tl (some (A ++ true :: List.replicate j' false))).1,
          p.1 = false := by
        intro p hp
        refine hmiss p ?_
        rw [hres]
        exact List.mem_cons_of_mem _ hp
      obtain ⟨hlen, hmap, hst⟩ := ih j' hmiss'
      refine ⟨?_, ?_, ?_⟩
      · simp only [List.length_cons]
        omega
      · rw [hres]
        simp only [List.map_cons, hmap, List.length_cons, List.range_succ_eq_map,
          List.map_map]
        have hfun : ((fun i => A.length + (j' + 1) - i) ∘ Nat.succ)
            = (fun i => A.length + j' - i) := by
          funext i
          simp [Function.comp]
          omega
        rw [hfun]
        simp
      · rw [hres, hst]
        simp only [List.length_cons]
        rw [show j' + 1 - (tl.length + 1) = j' - tl.length from by omega]

/-- C4: in one chat, starting from a fresh reload with any chamber count
`n ≥ 1` and loaded index `lucky < n`, a run of consecutive all-miss fires
has the remaining-count sequence `n-1, n-2, ...` (strict decrease by one per
fire) and can comprise at most `n - 1` fires, so the barrel never empties
without a hit; dually, any `n` consecutive fires of a cycle contain a hit. -/
theorem C4_no_empty_without_hit (n lucky : Nat) (hn : 1 ≤ n) (hl : lucky < n)
    (rngs : List (Nat × Nat)) :
    ((∀ p ∈ (runFiresN n rngs (some (_reloadN n lucky))).1, p.1 = false) →
      rngs.length < n ∧
      (runFiresN n rngs (some (_reloadN n lucky))).1.map Prod.snd =
        (List.range rngs.length).map (fun i => n - 1 - i)) ∧
    (rngs.length = n → ∃ p ∈ (runFiresN n rngs (some (_reloadN n lucky))).1, p.1 = true) := by
  have hform := reloadN_eq_concat_form n lucky hl
  have hmain : (∀ p ∈ (runFiresN n rngs (some (_reloadN n lucky))).1, p.1 = false) →
      rngs.length < n ∧
      (runFiresN n rngs (some (_reloadN n lucky))).1.map Prod.snd =
        (List.range rngs.length).map (fun i => n - 1 - i) := by
    intro hmiss
    rw [hform] at hmiss ⊢
    obtain ⟨hlen, hmap, hst⟩ :=
      miss_run n (List.replicate lucky false) rngs (n - lucky - 1) hmiss
    constructor
    · omega
    · rw [hmap]
      have hfun : (fun i => (List.replicate lucky false).length + (n - lucky - 1) - i)
          = (fun i => n - 1 - i) := by
        funext i
        simp only [List.length_replicate]
        omega
      rw [hfun]
  refine ⟨hmain, ?_⟩
  intro hlen
  by_contra hno
  push_neg at hno
  have hmiss : ∀ p ∈ (runFiresN n rngs (some (_reloadN n lucky))).1, p.1 = false := by
    intro p hp
    simpa using hno p hp
  have := (hmain hmiss).1
  omega

/-- Witness for C4 at `n = 6`, `lucky = 0`: five fires all miss (exercising
the all-miss branch), and six fires contain a hit. -/
theorem C4_no_empty_without_hit_witness :
    (1 ≤ 6 ∧ 0 < 6 ∧
      (∀ p ∈ (runFiresN 6 (List.replicate 5 (0, 0)) (some (_reloadN 6 0))).1, p.1 = false) ∧
      (List.replicate 6 ((0 : Nat), (0 : Nat))).length = 6) ∧
    (List.replicate 5 ((0 : Nat), (0 : Nat))).length < 6 ∧
    (runFiresN 6 (List.replicate 5 (0, 0)) (some (_reloadN 6 0))).1.map Prod.snd =
      (List.range (List.replicate 5 ((0 : Nat), (0 : Nat))).length).map (fun i => 6 - 1 - i) ∧
    (∃ p ∈ (runFiresN 6 (List.replicate 6 (0, 0)) (some (_reloadN 6 0))).1, p.1 = true) := by
  have h5 := C4_no_empty_without_hit 6 0 (by decide) (by decide) (List.replicate 5 (0, 0))
  have h6 := C4_no_empty_without_hit 6 0 (by decide) (by decide) (List.replicate 6 (0, 0))
  exact ⟨⟨by decide, by decide, by decide, by decide⟩,
    (h5.1 (by decide)).1, (h5.1 (by decide)).2, h6.2 (by decide)⟩

/-- C7 counterexample: with the loaded chamber at index 0 (the only draw
allowing five consecutive misses), the five misses report `remainingBefore`
`5, 4, 3, 2, 1` — not `4, 3, 2, 1, 0` as the claim states. -/
theorem C7_counterexample :
    (runFires (List.replicate 5 (0, 0)) (some (_reload 0))).1.map Prod.fst =
      [false, false, false, false, false] ∧
    (runFires (List.replicate 5 (0, 0)) (some (_reload 0))).1.map Prod.snd = [5, 4, 3, 2, 1] ∧
    (runFires (List.replicate 5 (0, 0)) (some (_reload 0))).1.map Prod.snd ≠ [4, 3, 2, 1, 0] := by
  decide

/-- C7 amended: five consecutive misses in one chat from a fresh reload
(forcing the loaded chamber to index 0) produce the `remainingBefore`
sequence `5, 4, 3, 2, 1`, and the sixth fire is necessarily a hit with
`remainingBefore = 0`, whatever random draws it uses. -/
theorem C7_five_misses (lucky : Nat) (hl : lucky < NUM_BULLETS)
    (rngs : List (Nat × Nat)) (h5 : rngs.length = 5)
    (hmiss : ∀ p ∈ (runFires rngs (some (_reload lucky))).1, p.1 = false) :
    (runFires rngs (some (_reload lucky))).1.map Prod.snd = [5, 4, 3, 2, 1] ∧
    ∀ li lh, (_shot li lh (runFires rngs (some (_reload lucky))).2).1 = (true, 0) := by
  have hform := reloadN_eq_concat_form NUM_BULLETS lucky hl
  unfold runFires _reload at hmiss ⊢
  rw [hform] at hmiss ⊢
  obtain ⟨hlen, hmap, hst⟩ :=
    miss_run NUM_BULLETS (List.replicate lucky false) rngs (NUM_BULLETS - lucky - 1) hmiss
  have hnb : NUM_BULLETS = 6 := rfl
  have hlucky : lucky = 0 := by omega
  subst hlucky
  rw [h5] at hmap hst
  constructor
  · rw [hmap]
    decide
  · intro li lh
    rw [hst]
    rfl

/-- Witness for C7's amended statement: `lucky = 0`, five fires, sixth fire
with draws `1`, `2`. -/
theorem C7_five_misses_witness :
    (0 < NUM_BULLETS ∧ (List.replicate 5 ((0 : Nat), (0 : Nat))).length = 5 ∧
      (∀ p ∈ (runFires (List.replicate 5 (0, 0)) (some (_reload 0))).1, p.1 = false)) ∧
    (runFires (List.replicate 5 (0, 0)) (some (_reload 0))).1.map Prod.snd = [5, 4, 3, 2, 1] ∧
    (_shot 1 2 (runFires (List.replicate 5 (0, 0)) (some (_reload 0))).2).1 = (true, 0) := by
  have h := C7_five_misses 0 (by decide) (List.replicate 5 (0, 0)) (by decide) (by decide)
  exact ⟨⟨by decide, by decide, by decide⟩, h.1, h.2 1 2⟩

theorem shotN_eq_of_effective (n li lh : Nat) (st : Option (List Bool)) (c : List Bool)
    (x : Bool) (h : effectiveBarrelN n li st = c ++ [x]) :
    _shotN n li lh st = ((x, c.length), if x then _reloadN n lh else c) := by
  simp only [_shotN, h, List.getLastD_concat, List.dropLast_concat]

/-- Chat barrel states reachable by the bot: a chat starts with no
`"barrel"` key, and every `_shot` (with in-range random draws) stores the
barrel it returns. -/
inductive ReachableChat : Option (List Bool) → Prop
  | init : ReachableChat none
  | fire (st : Option (List Bool)) (li lh : Nat) (hst : ReachableChat st)
      (hli : li < NUM_BULLETS) (hlh : lh < NUM_BULLETS) :
      ReachableChat (some (_shot li lh st).2)

theorem effectiveBarrel_inv (st : Option (List Bool)) (li : Nat) (hli : li < NUM_BULLETS)
    (hinv : ∀ b, st = some b → b.count true = 1 ∧ b.length ≤ NUM_BULLETS) :
    (effectiveBarrelN NUM_BULLETS li st).count true = 1 ∧
    (effectiveBarrelN NUM_BULLETS li st).length ≤ NUM_BULLETS := by
  cases st with
  | none =>
    refine ⟨reloadN_count_one _ _ hli, ?_⟩
    rw [show effectiveBarrelN NUM_BULLETS li none = _reloadN NUM_BULLETS li from rfl,
      reloadN_length]
  | some c =>
    by_cases hc : c.length = 0
    · have heq : effectiveBarrelN NUM_BULLETS li (some c) = _reloadN NUM_BULLETS li := by
        simp [effectiveBarrelN, hc]
      rw [heq]
      exact ⟨reloadN_count_one _ _ hli, le_of_eq (reloadN_length _ _)⟩
    · have hcne : c ≠ [] := fun h => hc (by simp [h])
      rw [effectiveBarrelN_of_ne_nil _ _ _ hcne]
      exact hinv c rfl

theorem reachable_invariant (st : Option (List Bool)) (hst : ReachableChat st) :
    ∀ b, st = some b → b.count true = 1 ∧ b.length ≤ NUM_BULLETS := by
  induction hst with
  | init =>
    intro b h
    cases h
  | fire st li lh hst hli hlh ih =>
    intro b hb
    injection hb with hb
    subst hb
    obtain ⟨hcount, hlen⟩ := effectiveBarrel_inv st li hli ih
    have hne := effectiveBarrelN_ne_nil NUM_BULLETS li (by decide) st
    obtain ⟨xs, x, hx⟩ := (List.eq_nil_or_concat _).resolve_left hne
    rw [List.concat_eq_append] at hx
    have hshot := shotN_eq_of_effective NUM_BULLETS li lh st xs x hx
    rw [hx] at hcount hlen
    rw [show _shot li lh st = _shotN NUM_BULLETS li lh st from rfl, hshot]
    cases x with
    | true =>
      simp only [if_pos rfl]
      exact ⟨reloadN_count_one _ _ hlh, le_of_eq (reloadN_length _ _)⟩
    | false =>
      simp only [Bool.false_eq_true, if_false]
      constructor
      · simpa [List.count_append] using hcount
      · have hnb : NUM_BULLETS = 6 := rfl
        rw [List.length_append, hnb] at hlen
        rw [hnb]
        simp only [List.length_cons, List.length_nil] at hlen
        omega

/-- C10: for every miss outcome of a fire in a reachable chat state (with
in-range random draws), `shots_remained` lies in `[1, NUM_BULLETS - 1]`, so
the index `NUM_BULLETS - shots_remain - 1` into the 5-element mood list of
`get_miss_string` lies in `[0, 4]` and the miss narration is produced
without an `IndexError`. -/
theorem C10_miss_string_in_bounds (st : Option (List Bool)) (li lh : Nat)
    (hst : ReachableChat st) (hli : li < NUM_BULLETS)
    (hmiss : (_shot li lh st).1.1 = false) :
    1 ≤ (_shot li lh st).1.2 ∧ (_shot li lh st).1.2 ≤ 5 ∧
    0 ≤ (NUM_BULLETS : Int) - ((_shot li lh st).1.2 : Int) - 1 ∧
    (NUM_BULLETS : Int) - ((_shot li lh st).1.2 : Int) - 1 ≤ 4 ∧
    (get_miss_string ((_shot li lh st).1.2 : Int)).isSome = true := by
  obtain ⟨hcount, hlen⟩ := effectiveBarrel_inv st li hli (reachable_invariant st hst)
  have hne := effectiveBarrelN_ne_nil NUM_BULLETS li (by decide) st
  obtain ⟨xs, x, hx⟩ := (List.eq_nil_or_concat _).resolve_left hne
  rw [List.concat_eq_append] at hx
  have hshot := shotN_eq_of_effective NUM_BULLETS li lh st xs x hx
  rw [show _shot li lh st = _shotN NUM_BULLETS li lh st from rfl, hshot] at hmiss ⊢
  simp only [] at hmiss
  subst hmiss
  rw [hx] at hcount hlen
  have hxs1 : xs.count true = 1 := by simpa [List.count_append] using hcount
  have hxsne : xs ≠ [] := by
    intro h
    rw [h] at hxs1
    simp at hxs1
  have h1 : 1 ≤ xs.length := List.length_pos.mpr hxsne
  have h5 : xs.length ≤ 5 := by
    rw [List.length_append] at hlen
    have hnb : NUM_BULLETS = 6 := rfl
    simp only [List.length_cons, List.length_nil] at hlen
    omega
  refine ⟨h1, h5, ?_, ?_, ?_⟩
  · show 0 ≤ (NUM_BULLETS : Int) - (xs.length : Int) - 1
    have hnb : (NUM_BULLETS : Int) = 6 := rfl
    omega
  · show (NUM_BULLETS : Int) - (xs.length : Int) - 1 ≤ 4
    have hnb : (NUM_BULLETS : Int) = 6 := rfl
    omega
  · show (get_miss_string ((xs.length : Nat) : Int)).isSome = true
    have hcases : xs.length = 1 ∨ xs.length = 2 ∨ xs.length = 3 ∨ xs.length = 4 ∨
        xs.length = 5 := by omega
    rcases hcases with h | h | h | h | h <;> rw [h] <;> decide

/-- Witness for C10: the very first fire of a fresh chat with the bullet at
index 0 is a miss with `shots_remained = 5`. -/
theorem C10_miss_string_in_bounds_witness :
    (0 < NUM_BULLETS ∧ (_shot 0 0 none).1.1 = false) ∧
    1 ≤ (_shot 0 0 none).1.2 ∧ (_shot 0 0 none).1.2 ≤ 5 ∧
    0 ≤ (NUM_BULLETS : Int) - ((_shot 0 0 none).1.2 : Int) - 1 ∧
    (NUM_BULLETS : Int) - ((_shot 0 0 none).1.2 : Int) - 1 ≤ 4 ∧
    (get_miss_string ((_shot 0 0 none).1.2 : Int)).isSome = true := by
  have h := C10_miss_string_in_bounds none 0 0 ReachableChat.init (by decide) (by decide)
  exact ⟨⟨by decide, by decide⟩, h⟩

-- ### Ledger operation sequences

/-- The ledger mutations the fire path performs.  `register` carries the
call-site guard of `roll`: `_db.find(user_id=user.id) or _db.add(user=user)`
(insert only when absent). -/
inductive LedgerOp where
  | register (uid : Int) (meta : String) (now : Nat)
  | recordMiss (uid : Int) (now : Nat)
  | recordDeath (uid : Int) (mute_min : Int) (now : Nat)

def applyOp (db : DBState) : LedgerOp → DBState
  | .register uid meta now =>
    if (DB_find db uid).isSome then db else DB_add db uid meta now
  | .recordMiss uid now => DB_miss db uid now
  | .recordDeath uid mute_min now => DB_dead db uid mute_min now

def applyOps (db : DBState) : List LedgerOp → DBState
  | [] => db
  | op :: rest => applyOps (applyOp db op) rest

/-- The spec's counter invariant, for every record of the collection. -/
def counterInv (db : DBState) : Prop :=
  ∀ p ∈ db, p.2.shot_counter = p.2.miss_counter + p.2.dead_counter

instance (db : DBState) : Decidable (counterInv db) :=
  inferInstanceAs
    (Decidable (∀ p ∈ db, p.2.shot_counter = p.2.miss_counter + p.2.dead_counter))

theorem counterInv_updateOne (db : DBState) (uid : Int) (f : Hussar → Hussar)
    (hf : ∀ h : Hussar, h.shot_counter = h.miss_counter + h.dead_counter →
      (f h).shot_counter = (f h).miss_counter + (f h).dead_counter)
    (hdb : counterInv db) : counterInv (updateOne db uid f) := by
  intro p hp
  rw [updateOne] at hp
  obtain ⟨q, hq, hpq⟩ := List.mem_map.mp hp
  by_cases hqu : (q.1 == uid) = true
  · rw [if_pos hqu] at hpq
    subst hpq
    exact hf q.2 (hdb q hq)
  · rw [if_neg hqu] at hpq
    subst hpq
    exact hdb q hq

theorem counterInv_applyOp (db : DBState) (op : LedgerOp) (hdb : counterInv db) :
    counterInv (applyOp db op) := by
  cases op with
  | register uid meta now =>
    by_cases hf : (DB_find db uid).isSome
    · simpa [applyOp, hf] using hdb
    · intro p hp
      simp only [applyOp, hf, if_false, DB_add] at hp
      rcases List.mem_cons.mp hp with hp | hp
      · subst hp
        rfl
      · exact hdb p hp
  | recordMiss uid now =>
    refine counterInv_updateOne db uid (missUpdate now) (fun h hh => ?_) hdb
    simp only [missUpdate]
    omega
  | recordDeath uid mute_min now =>
    refine counterInv_updateOne db uid (deadUpdate mute_min now) (fun h hh => ?_) hdb
    simp only [deadUpdate]
    omega

theorem counterInv_applyOps (db : DBState) (ops : List LedgerOp) (hdb : counterInv db) :
    counterInv (applyOps db ops) := by
  induction ops generalizing db with
  | nil => exact hdb
  | cons op rest ih => exact ih (applyOp db op) (counterInv_applyOp db op hdb)

/-- C5: a fresh record has all three counters zero; `DB.miss` increments
`shot_counter` and `miss_counter` by exactly 1; `DB.dead` increments
`shot_counter` and `dead_counter` by exactly 1 and adds exactly
`mute_min * 60` to `total_time_in_club`; and the invariant
`shot_counter = miss_counter + dead_counter` holds for every record after
any sequence of register/miss/dead mutations from an invariant-satisfying
collection. -/
theorem C5_counter_invariant (meta : String) (now : Nat) (h : Hussar) (mute_min : Int)
    (db : DBState) (ops : List LedgerOp) (hdb : counterInv db) :
    (freshHussar meta now).shot_counter = 0 ∧
    (freshHussar meta now).miss_counter = 0 ∧
    (freshHussar meta now).dead_counter = 0 ∧
    (missUpdate now h).shot_counter = h.shot_counter + 1 ∧
    (missUpdate now h).miss_counter = h.miss_counter + 1 ∧
    (deadUpdate mute_min now h).shot_counter = h.shot_counter + 1 ∧
    (deadUpdate mute_min now h).dead_counter = h.dead_counter + 1 ∧
    (deadUpdate mute_min now h).total_time_in_club = h.total_time_in_club + mute_min * 60 ∧
    counterInv (applyOps db ops) :=
  ⟨rfl, rfl, rfl, rfl, rfl, rfl, rfl, rfl, counterInv_applyOps db ops hdb⟩

/-- Witness for C5: a register-miss-death history of one player from the
empty collection. -/
theorem C5_counter_invariant_witness :
    counterInv ([] : DBState) ∧
    (freshHussar "m" 0).shot_counter = 0 ∧
    (freshHussar "m" 0).miss_counter = 0 ∧
    (freshHussar "m" 0).dead_counter = 0 ∧
    (missUpdate 1 (freshHussar "m" 0)).shot_counter = (freshHussar "m" 0).shot_counter + 1 ∧
    (missUpdate 1 (freshHussar "m" 0)).miss_counter = (freshHussar "m" 0).miss_counter + 1 ∧
    (deadUpdate 960 2 (freshHussar "m" 0)).shot_counter = (freshHussar "m" 0).shot_counter + 1 ∧
    (deadUpdate 960 2 (freshHussar "m" 0)).dead_counter = (freshHussar "m" 0).dead_counter + 1 ∧
    (deadUpdate 960 2 (freshHussar "m" 0)).total_time_in_club =
      (freshHussar "m" 0).total_time_in_club + 960 * 60 ∧
    counterInv (applyOps ([] : DBState)
      [LedgerOp.register 7 "m" 0, LedgerOp.recordMiss 7 1,
        LedgerOp.recordDeath 7 960 2]) := by
  have h := C5_counter_invariant "m" 0 (freshHussar "m" 0) 960 ([] : DBState)
    [LedgerOp.register 7 "m" 0, LedgerOp.recordMiss 7 1, LedgerOp.recordDeath 7 960 2]
    (by decide)
  exact ⟨by decide, h.1, h.2.1, h.2.2.1, h.2.2.2.1, h.2.2.2.2.1, h.2.2.2.2.2.1,
    h.2.2.2.2.2.2.1, h.2.2.2.2.2.2.2.1, h.2.2.2.2.2.2.2.2⟩

-- ### Frame lemmas for DB_find

theorem DB_find_updateOne_self (db : DBState) (uid : Int) (f : Hussar → Hussar) :
    DB_find (updateOne db uid f) uid = (DB_find db uid).map f := by
  induction db with
  | nil => rfl
  | cons p rest ih =>
    by_cases hp : p.1 = uid
    · rw [show updateOne (p :: rest) uid f = (p.1, f p.2) :: updateOne rest uid f from by
        simp [updateOne, hp]]
      rw [show DB_find ((p.1, f p.2) :: updateOne rest uid f) uid = some (f p.2) from by
        simp [DB_find, List.find?_cons_of_pos, hp]]
      rw [show DB_find (p :: rest) uid = some p.2 from by
        simp [DB_find, List.find?_cons_of_pos, hp]]
      rfl
    · rw [show updateOne (p :: rest) uid f = p :: updateOne rest uid f from by
        simp [updateOne, hp]]
      rw [show DB_find (p :: updateOne rest uid f) uid = DB_find (updateOne rest uid f) uid
        from by simp [DB_find, List.find?_cons_of_neg, hp]]
      rw [show DB_find (p :: rest) uid = DB_find rest uid
        from by simp [DB_find, List.find?_cons_of_neg, hp]]
      exact ih

theorem DB_find_updateOne_other (db : DBState) (uid other : Int) (f : Hussar → Hussar)
    (hne : other ≠ uid) :
    DB_find (updateOne db uid f) other = DB_find db other := by
  induction db with
  | nil => rfl
  | cons p rest ih =>
    by_cases hp : p.1 = uid
    · have hpo : ¬p.1 = other := by
        rw [hp]
        exact fun h => hne h.symm
      rw [show updateOne (p :: rest) uid f = (p.1, f p.2) :: updateOne rest uid f from by
        simp [updateOne, hp]]
      rw [show DB_find ((p.1, f p.2) :: updateOne rest uid f) other
          = DB_find (updateOne rest uid f) other from by
        simp [DB_find, List.find?_cons_of_neg, hpo]]
      rw [show DB_find (p :: rest) other = DB_find rest other from by
        simp [DB_find, List.find?_cons_of_neg, hpo]]
      exact ih
    · rw [show updateOne (p :: rest) uid f = p :: updateOne rest uid f from by
        simp [updateOne, hp]]
      by_cases hpo : p.1 = other
      · rw [show DB_find (p :: updateOne rest uid f) other = some p.2 from by
          simp [DB_find, List.find?_cons_of_pos, hpo]]
        rw [show DB_find (p :: rest) other = some p.2 from by
          simp [DB_find, List.find?_cons_of_pos, hpo]]
      · rw [show DB_find (p :: updateOne rest uid f) other
            = DB_find (updateOne rest uid f) other from by
          simp [DB_find, List.find?_cons_of_neg, hpo]]
        rw [show DB_find (p :: rest) other = DB_find rest other from by
          simp [DB_find, List.find?_cons_of_neg, hpo]]
        exact ih

/-- C9: `DB.miss` leaves `dead_counter`, `total_time_in_club`, `first_shot`
and the profile snapshot of the target record unchanged; `DB.dead` leaves
`miss_counter`, `first_shot` and the profile unchanged; and both operations
touch no record other than the one keyed by `user_id`. -/
theorem C9_frame (db : DBState) (uid other : Int) (now : Nat) (mute_min : Int)
    (h : Hussar) (hne : other ≠ uid) :
    (missUpdate now h).dead_counter = h.dead_counter ∧
    (missUpdate now h).total_time_in_club = h.total_time_in_club ∧
    (missUpdate now h).first_shot = h.first_shot ∧
    (missUpdate now h).meta = h.meta ∧
    (deadUpdate mute_min now h).miss_counter = h.miss_counter ∧
    (deadUpdate mute_min now h).first_shot = h.first_shot ∧
    (deadUpdate mute_min now h).meta = h.meta ∧
    DB_find (DB_miss db uid now) uid = (DB_find db uid).map (missUpdate now) ∧
    DB_find (DB_dead db uid mute_min now) uid = (DB_find db uid).map (deadUpdate mute_min now) ∧
    DB_find (DB_miss db uid now) other = DB_find db other ∧
    DB_find (DB_dead db uid mute_min now) other = DB_find db other :=
  ⟨rfl, rfl, rfl, rfl, rfl, rfl, rfl,
    DB_find_updateOne_self db uid (missUpdate now),
    DB_find_updateOne_self db uid (deadUpdate mute_min now),
    DB_find_updateOne_other db uid other (missUpdate now) hne,
    DB_find_updateOne_other db uid other (deadUpdate mute_min now) hne⟩

/-- Witness for C9 at a one-record collection. -/
theorem C9_frame_witness :
    ((3 : Int) ≠ 7) ∧
    (missUpdate 1 (freshHussar "m" 0)).dead_counter = (freshHussar "m" 0).dead_counter ∧
    (missUpdate 1 (freshHussar "m" 0)).total_time_in_club =
      (freshHussar "m" 0).total_time_in_club ∧
    (missUpdate 1 (freshHussar "m" 0)).first_shot = (freshHussar "m" 0).first_shot ∧
    (missUpdate 1 (freshHussar "m" 0)).meta = (freshHussar "m" 0).meta ∧
    (deadUpdate 960 1 (freshHussar "m" 0)).miss_counter = (freshHussar "m" 0).miss_counter ∧
    (deadUpdate 960 1 (freshHussar "m" 0)).first_shot = (freshHussar "m" 0).first_shot ∧
    (deadUpdate 960 1 (freshHussar "m" 0)).meta = (freshHussar "m" 0).meta ∧
    DB_find (DB_miss [(7, freshHussar "m" 0)] 7 1) 7 =
      (DB_find [(7, freshHussar "m" 0)] 7).map (missUpdate 1) ∧
    DB_find (DB_dead [(7, freshHussar "m" 0)] 7 960 1) 7 =
      (DB_find [(7, freshHussar "m" 0)] 7).map (deadUpdate 960 1) ∧
    DB_find (DB_miss [(7, freshHussar "m" 0)] 7 1) 3 = DB_find [(7, freshHussar "m" 0)] 3 ∧
    DB_find (DB_dead [(7, freshHussar "m" 0)] 7 960 1) 3 = DB_find [(7, freshHussar "m" 0)] 3 := by
  have h := C9_frame [(7, freshHussar "m" 0)] 7 3 1 960 (freshHussar "m" 0) (by decide)
  exact ⟨by decide, h.1, h.2.1, h.2.2.1, h.2.2.2.1, h.2.2.2.2.1, h.2.2.2.2.2.1,
    h.2.2.2.2.2.2.1, h.2.2.2.2.2.2.2.1, h.2.2.2.2.2.2.2.2.1,
    h.2.2.2.2.2.2.2.2.2.1, h.2.2.2.2.2.2.2.2.2.2⟩

/-- C6: `roll` registers the player only when absent (an existing record is
never reset), fires, and on a hit records a death with
`get_mute_minutes(shots_remained)` while reporting `died = true`, on a miss
records a miss and reports `died = false` with zero penalty. -/
theorem C6_roll_orchestration (db : DBState) (uid : Int) (meta : String) (now : Nat)
    (li lh : Nat) (stored : Option (List Bool)) :
    (roll db uid meta now li lh stored).1.died = (_shot li lh stored).1.1 ∧
    (roll db uid meta now li lh stored).1.remainingBefore = (_shot li lh stored).1.2 ∧
    ((_shot li lh stored).1.1 = true →
      (roll db uid meta now li lh stored).1.penaltyMinutes =
        get_mute_minutes ((_shot li lh stored).1.2 : Int)) ∧
    ((_shot li lh stored).1.1 = false →
      (roll db uid meta now li lh stored).1.penaltyMinutes = 0) ∧
    ((DB_find db uid).isSome = true →
      (roll db uid meta now li lh stored).2.1 =
        (if (_shot li lh stored).1.1 then
          DB_dead db uid (get_mute_minutes ((_shot li lh stored).1.2 : Int)) now
        else DB_miss db uid now)) ∧
    ((DB_find db uid).isSome = false →
      (roll db uid meta now li lh stored).2.1 =
        (if (_shot li lh stored).1.1 then
          DB_dead (DB_add db uid meta now) uid
            (get_mute_minutes ((_shot li lh stored).1.2 : Int)) now
        else DB_miss (DB_add db uid meta now) uid now)) := by
  by_cases hfind : (DB_find db uid).isSome = true <;>
    by_cases hfate : (_shot li lh stored).1.1 = true <;>
      simp_all [roll]

/-- Witness for C6: a miss fire (`stored = [false, false]`) by an
unregistered player on the empty collection. -/
theorem C6_roll_orchestration_witness :
    (roll [] 1 "m" 0 0 0 (some [false, false])).1.died =
      (_shot 0 0 (some [false, false])).1.1 ∧
    (roll [] 1 "m" 0 0 0 (some [false, false])).1.remainingBefore =
      (_shot 0 0 (some [false, false])).1.2 ∧
    (roll [] 1 "m" 0 0 0 (some [false, false])).1.penaltyMinutes = 0 ∧
    (roll [] 1 "m" 0 0 0 (some [false, false])).2.1 =
      DB_miss (DB_add [] 1 "m" 0) 1 0 := by
  have h := C6_roll_orchestration [] 1 "m" 0 0 0 (some [false, false])
  refine ⟨h.1, h.2.1, h.2.2.2.1 (by decide), ?_⟩
  have h6 := h.2.2.2.2.2 (by decide)
  rw [h6]
  decide

-- ### Locking structure (C8)

/-- C8 counterexample: the source guards `_shot` with the single
module-level `barrel_lock` for every chat, so two distinct chats use the
same lock — contradicting the claimed per-chat-id lock. -/
theorem C8_counterexample :
    lockForChat 0 = lockForChat 1 ∧ (0 : Int) ≠ 1 :=
  ⟨rfl, by decide⟩

/-- C8 amended: every chat's fire acquires the one global `barrel_lock`;
mutual exclusion is process-wide, not per chat, so fires in different chats
serialize on the same lock. -/
theorem C8_single_global_lock (a b : Int) :
    lockForChat a = lockForChat b ∧ lockForChat a = barrel_lock :=
  ⟨rfl, rfl⟩

end Roll
